import Mathlib

/-!
# Verification of `organize_files.py`

A shallow embedding of the extraction tool `src/organize_files.py`.
Strings are modelled as `List Char`; a document is the raw character list of
one input file, and `splitLines` models Python's `content.split('\n')`.

The regular expressions of `extract_file_info`,

* `(?:\/\/|#) ((?:apps|packages)\/[\w\/\-]+\.\w+)` and
* `^((?:apps|packages)\/[\w\/\-]+\.\w+)`,

applied with `re.match` (anchored prefix match) on `line.strip()`, are
embedded as explicit parsers (`reMatchPattern1`, `matchPathShape`): the only
backtracking point of these patterns is vacuous because `.` is not in the
class `[\w\/\-]`, so the greedy match is the unique one.  `\w` and the
whitespace stripped by `str.strip()` are modelled over their ASCII subsets
(the inputs of interest are ASCII).
-/

/-- ASCII model of the whitespace removed by Python's `str.strip()`:
space, tab, newline, carriage return, vertical tab, form feed. -/
def isPySpace (c : Char) : Bool :=
  c = ' ' || c = '\t' || c = '\n' || c = '\r' || c = Char.ofNat 11 || c = Char.ofNat 12

/-- ASCII model of the regex class `\w`: letters, digits, underscore. -/
def isWordChar (c : Char) : Bool :=
  ('a' ≤ c && c ≤ 'z') || ('A' ≤ c && c ≤ 'Z') || ('0' ≤ c && c ≤ '9') || c = '_'

/-- The regex class `[\w\/\-]` of the path patterns. -/
def isPathChar (c : Char) : Bool :=
  isWordChar c || c = '/' || c = '-'

/-- The characters removed by `strip('\'"')` in `process_file` (line 71):
a single or a double quote. -/
def isQuoteChar (c : Char) : Bool :=
  c = Char.ofNat 39 || c = '"'

/-- Remove the characters satisfying `f` from both ends of a list, the way
Python's `str.strip` does. -/
def stripEnds (f : Char → Bool) (l : List Char) : List Char :=
  ((l.dropWhile f).reverse.dropWhile f).reverse

/-- Python's `line.strip()` (default whitespace stripping). -/
def pyStrip (l : List Char) : List Char :=
  stripEnds isPySpace l

/-- The path normalization of `process_file` line 71:
`file_path.strip('\'"').strip()`. -/
def normalizePath (p : List Char) : List Char :=
  stripEnds isPySpace (stripEnds isQuoteChar p)

/-- Match a literal prefix: `matchLit pre s = some t` exactly when
`s = pre ++ t`.  Used for the literal pieces of the regexes. -/
def matchLit : List Char → List Char → Option (List Char)
  | [], s => some s
  | _ :: _, [] => none
  | p :: ps, c :: cs => if c = p then matchLit ps cs else none

/-- The part `[\w\/\-]+\.\w+` of both path regexes, matched greedily at the
start of `t` (`re.match` prefix semantics); returns the matched characters.
Backtracking of the first `+` is vacuous: every character it gives back is in
`[\w\/\-]`, which `\.` can never match. -/
def matchCore (t : List Char) : Option (List Char) :=
  match t.dropWhile isPathChar with
  | [] => none
  | d :: r2 =>
      if d = '.' then
        if t.takeWhile isPathChar = [] then none
        else if r2.takeWhile isWordChar = [] then none
        else some (t.takeWhile isPathChar ++ '.' :: r2.takeWhile isWordChar)
      else none

/-- The group `((?:apps|packages)\/[\w\/\-]+\.\w+)` matched at the start of
`s`; the two alternatives cannot both apply, so trying `apps` first is the
regex's ordered alternation. -/
def matchPathShape (s : List Char) : Option (List Char) :=
  match matchLit ("apps/").data s with
  | some t => (matchCore t).map (fun m => ("apps/").data ++ m)
  | none =>
    match matchLit ("packages/").data s with
    | some t => (matchCore t).map (fun m => ("packages/").data ++ m)
    | none => none

/-- The first pattern `(?:\/\/|#) (...)` of `file_patterns` (line 14),
anchored at the start of the already-stripped line; the two comment tokens
exclude each other, so ordered alternation is a plain case split.  The
returned value is `group(1)`, the path alone. -/
def reMatchPattern1 (s : List Char) : Option (List Char) :=
  match matchLit ("// ").data s with
  | some t => matchPathShape t
  | none =>
    match matchLit ("# ").data s with
    | some t => matchPathShape t
    | none => none

/-- Lines 29–35 of `extract_file_info`: try the two patterns in order with
`re.match(pattern, line.strip())`, first match wins, returning `group(1)`. -/
def findMarker (line : List Char) : Option (List Char) :=
  match reMatchPattern1 (pyStrip line) with
  | some p => some p
  | none => matchPathShape (pyStrip line)

/-- The condition of the skip loop at line 48:
`not l.strip() or l.strip().startswith('//') or l.strip().startswith('#')`. -/
def isBlankOrComment (line : List Char) : Bool :=
  (pyStrip line).isEmpty
    || (matchLit ("//").data (pyStrip line)).isSome
    || (matchLit ("#").data (pyStrip line)).isSome

/-- Python's `'\n'.join(lines)`. -/
def joinNL : List (List Char) → List Char
  | [] => []
  | [l] => l
  | l :: ls => l ++ '\n' :: joinNL ls

/-- Python's `content.split('\n')`: the empty text gives one empty line, and
every newline character separates two lines. -/
def splitLines : List Char → List (List Char)
  | [] => [[]]
  | c :: cs =>
      if c = '\n' then [] :: splitLines cs
      else
        match splitLines cs with
        | [] => [[c]]
        | l :: ls => (c :: l) :: ls


/-- The scanning loop of `extract_file_info` (lines 19–60).  One call
processes the remaining lines with the loop state: `skipping` is true exactly
while the inner `while` of lines 47–49 is consuming blank/comment lines,
`cur` is `current_file`, `acc` is `current_content`.  On a marker (line 37):
if a file is open it is emitted unconditionally (lines 39–40), the new path
is opened with an empty accumulator and the skip phase starts.  On any other
line the raw line is accumulated when a file is open (lines 50–54).  At end
of input the open file is emitted only when the accumulator list is non-empty
(lines 56–58).  `current_file` is a path produced by `group(1)`, which is
never the empty string, so Python's truthiness test `if current_file:`
is `cur`'s being `some`. -/
def extractGo : List (List Char) → Bool → Option (List Char) → List (List Char) →
    List (List Char × List Char)
  | [], _, cur, acc =>
      match cur with
      | some cf => if acc = [] then [] else [(cf, pyStrip (joinNL acc))]
      | none => []
  | l :: ls, skipping, cur, acc =>
      if skipping && isBlankOrComment l then
        extractGo ls true cur acc
      else
        match findMarker l with
        | some p =>
            (match cur with
             | some cf => [(cf, pyStrip (joinNL acc))]
             | none => []) ++ extractGo ls true (some p) []
        | none =>
            match cur with
            | some _ => extractGo ls false cur (acc ++ [l])
            | none => extractGo ls false cur acc

/-- `extract_file_info(content)` (lines 9–60): split the text on newlines and
run the scanning loop from the initial state. -/
def extract_file_info (content : List Char) : List (List Char × List Char) :=
  extractGo (splitLines content) false none []


/-- Model of `os.path.join(dest_dir, file_path)` for a relative `file_path`
and a destination root without a trailing separator. -/
def outPath (dest p : List Char) : List Char :=
  dest ++ '/' :: p

/-- The (path, content) pairs of one document after the normalization of
`process_file` line 71, before joining with the destination. -/
def fileWrites (content : List Char) : List (List Char × List Char) :=
  (extract_file_info content).map (fun z => (normalizePath z.1, z.2))

/-- The writes of `process_file` (lines 62–83) for one document: normalized
paths joined with the destination root, contents unchanged, in emission
order. -/
def docWrites (dest content : List Char) : List (List Char × List Char) :=
  (fileWrites content).map (fun z => (outPath dest z.1, z.2))

/-- The writes of a whole run of `main` over a list of documents, in
traversal order (lines 99–103), each written sequentially. -/
def allWrites (dest : List Char) : List (List Char) → List (List Char × List Char)
  | [] => []
  | d :: ds => docWrites dest d ++ allWrites dest ds

/-- A filesystem as a map from path to content; `none` is an absent file. -/
def FS : Type :=
  List Char → Option (List Char)

/-- Writing one file: `open(full_path, 'w')` overwrites any existing file. -/
def writeFile (fs : FS) (p c : List Char) : FS :=
  fun q => if q = p then some c else fs q

/-- Applying a list of writes in order (sequential processing). -/
def applyWrites (fs : FS) : List (List Char × List Char) → FS
  | [] => fs
  | w :: ws => applyWrites (writeFile fs w.1 w.2) ws

/-- The last write for a path within a write list, if any. -/
def lastWrite : List (List Char × List Char) → List Char → Option (List Char)
  | [], _ => none
  | w :: ws, q =>
      match lastWrite ws q with
      | some c => some c
      | none => if q = w.1 then some w.2 else none

/-- The console events of `main`: `Created file: ...` per written file and
`Error processing ...` per failed document. -/
inductive Event where
  | created : List Char → Event
  | errorProcessing : List Char → List Char → Event

/-- Modelled I/O of the per-document loop of `main` (lines 99–105): each
document comes with the outcome of `process_file` on it — the created paths,
or the exception it raised.  A failure is converted into one error event
naming the document, and the loop continues with the next document. -/
def runDocs : List (List Char × Except (List Char) (List (List Char))) → List Event
  | [] => []
  | d :: ds =>
      (match d.2 with
       | Except.ok ps => ps.map Event.created
       | Except.error e => [Event.errorProcessing d.1 e]) ++ runDocs ds

/-- `main` (lines 85–107): `os.makedirs(dest_dir)` at line 96 is outside any
handler, so its failure propagates and aborts the run; afterwards every
document is attempted with the per-document `try/except`. -/
def organizeRun (mkdir : Except (List Char) Unit)
    (docs : List (List Char × Except (List Char) (List (List Char)))) :
    Except (List Char) (List Event) :=
  match mkdir with
  | Except.error e => Except.error e
  | Except.ok _ => Except.ok (runDocs docs)

/-- The loop state of `extract_file_info` at the top of the `while` of
line 26: the line index and the three mutable variables. -/
structure LoopState where
  i : Nat
  current_file : Option (List Char)
  current_content : List (List Char)
  files_data : List (List Char × List Char)

/-- Where the inner skip loop of lines 47–49 leaves the index when it starts
at `j`: past the maximal run of blank/comment lines. -/
def skipIndex (lines : List (List Char)) (j : Nat) : Nat :=
  j + ((lines.drop j).takeWhile isBlankOrComment).length

/-- One full iteration of the outer `while` loop (lines 26–54), including the
inner skip loop of the marker branch; out of range the state is returned
unchanged (the loop has exited). -/
def loopStep (lines : List (List Char)) (s : LoopState) : LoopState :=
  match lines.get? s.i with
  | none => s
  | some line =>
    match findMarker line with
    | some p =>
        { i := skipIndex lines (s.i + 1),
          current_file := some p,
          current_content := [],
          files_data := s.files_data ++ (match s.current_file with
            | some cf => [(cf, pyStrip (joinNL s.current_content))]
            | none => []) }
    | none =>
        { i := s.i + 1,
          current_file := s.current_file,
          current_content := (match s.current_file with
            | some _ => s.current_content ++ [line]
            | none => s.current_content),
          files_data := s.files_data }

/-- Modelled from the spec: claim C5's wording of marker recognition.  Form
(a): after trimming, the line begins with a line-comment token followed by
whitespace and then the path shape; form (b): the path shape anchored at the
very start of the raw line, with no comment prefix.  The path shape itself is
shared with the code (`matchPathShape`), isolating the claim's anchoring. -/
def isMarkerClaim (line : List Char) : Bool :=
  (match (match matchLit ("//").data (pyStrip line) with
          | some t => some t
          | none => matchLit ("#").data (pyStrip line)) with
   | some t =>
       (match t with
        | c :: _ => isPySpace c
        | [] => false) && (matchPathShape (t.dropWhile isPySpace)).isSome
   | none => false)
  || (matchPathShape line).isSome

/-- Declarative reading of the path group `(?:apps|packages)\/[\w\/\-]+\.\w+`
at the start of `s`: an allow-listed root, a slash, a non-empty run of
word/slash/hyphen characters, a dot, a non-empty run of word characters, and
then anything. -/
def IsPathShapeAt (s : List Char) : Prop :=
  ∃ pre body ext rest,
    (pre = ("apps/").data ∨ pre = ("packages/").data) ∧
    s = pre ++ (body ++ '.' :: (ext ++ rest)) ∧
    body ≠ [] ∧ (∀ c ∈ body, isPathChar c = true) ∧
    ext ≠ [] ∧ (∀ c ∈ ext, isWordChar c = true)

/-- Declarative marker recognition as the code implements it: on the trimmed
line, either a comment token (`//` or `#`) followed by a single space and the
path shape, or the path shape itself. -/
def IsMarkerAmended (line : List Char) : Prop :=
  (∃ t, (pyStrip line = ("// ").data ++ t ∨ pyStrip line = ("# ").data ++ t) ∧ IsPathShapeAt t)
  ∨ IsPathShapeAt (pyStrip line)


/-! ## Basic lemmas about the scanner's building blocks -/

theorem matchLit_eq_some : ∀ (pre s t : List Char), matchLit pre s = some t ↔ s = pre ++ t := by
  intro pre
  induction pre with
  | nil =>
      intro s t
      simp [matchLit]
  | cons p ps ih =>
      intro s t
      cases s with
      | nil => simp [matchLit]
      | cons c cs =>
          by_cases hc : c = p
          · subst hc; simp [matchLit, ih]
          · simp [matchLit, hc]

theorem takeWhile_all_append {α : Type} {p : α → Bool} :
    ∀ (xs : List α) (y : α) (ys : List α), (∀ c ∈ xs, p c = true) → p y = false →
      (xs ++ y :: ys).takeWhile p = xs := by
  intro xs
  induction xs with
  | nil => intro y ys _ hy; simp [List.takeWhile_cons, hy]
  | cons a as ih =>
      intro y ys hall hy
      have ha : p a = true := hall a (by simp)
      simp only [List.cons_append, List.takeWhile_cons, ha, if_true]
      rw [ih y ys (fun c hc => hall c (by simp [hc])) hy]

theorem dropWhile_all_append {α : Type} {p : α → Bool} :
    ∀ (xs : List α) (y : α) (ys : List α), (∀ c ∈ xs, p c = true) → p y = false →
      (xs ++ y :: ys).dropWhile p = y :: ys := by
  intro xs
  induction xs with
  | nil => intro y ys _ hy; simp [List.dropWhile_cons, hy]
  | cons a as ih =>
      intro y ys hall hy
      have ha : p a = true := hall a (by simp)
      simp only [List.cons_append, List.dropWhile_cons, ha, if_true]
      exact ih y ys (fun c hc => hall c (by simp [hc])) hy

theorem getLast?_some_mem {α : Type} {l : List α} {a : α} (h : l.getLast? = some a) : a ∈ l := by
  have hh : l.reverse.head? = some a := by rw [List.head?_reverse]; exact h
  cases hr : l.reverse with
  | nil => rw [hr] at hh; simp at hh
  | cons x xs =>
      rw [hr] at hh
      simp at hh
      rw [← List.mem_reverse, hr, hh]
      simp

theorem stripEnds_id (f : Char → Bool) (l : List Char)
    (hh : ∀ c, l.head? = some c → f c = false)
    (hl : ∀ c, l.getLast? = some c → f c = false) :
    stripEnds f l = l := by
  cases l with
  | nil => rfl
  | cons x m =>
      have hx : f x = false := hh x rfl
      have h1 : (x :: m).dropWhile f = x :: m := by
        rw [List.dropWhile_cons]; simp [hx]
      unfold stripEnds
      rw [h1]
      cases hr : (x :: m).reverse with
      | nil => simp at hr
      | cons y r =>
          have hy : f y = false := by
            apply hl y
            rw [← List.head?_reverse, hr]; rfl
          have h2 : List.dropWhile f (y :: r) = y :: r := by
            rw [List.dropWhile_cons]; simp [hy]
          rw [h2, ← hr, List.reverse_reverse]

theorem apps_data : ("apps/").data = ['a', 'p', 'p', 's', '/'] := rfl

theorem packages_data : ("packages/").data = ['p', 'a', 'c', 'k', 'a', 'g', 'e', 's', '/'] := rfl

/-- Successful core matches decompose the input and the group. -/
theorem matchCore_eq_some {t m : List Char} (h : matchCore t = some m) :
    ∃ body ext rest, t = body ++ '.' :: (ext ++ rest) ∧ m = body ++ '.' :: ext ∧
      body ≠ [] ∧ (∀ c ∈ body, isPathChar c = true) ∧
      ext ≠ [] ∧ (∀ c ∈ ext, isWordChar c = true) := by
  unfold matchCore at h
  split at h
  · exact absurd h (by simp)
  next d r2 hd =>
    split at h
    next hdot =>
      subst hdot
      split at h
      · exact absurd h (by simp)
      next hbody =>
        split at h
        · exact absurd h (by simp)
        next hext =>
          refine ⟨t.takeWhile isPathChar, r2.takeWhile isWordChar, r2.dropWhile isWordChar,
            ?_, ?_, hbody, ?_, hext, ?_⟩
          · conv_lhs => rw [← List.takeWhile_append_dropWhile (p := isPathChar) (l := t)]
            rw [hd, List.takeWhile_append_dropWhile]
          · exact (Option.some_inj.mp h).symm
          · intro c hc; exact List.mem_takeWhile_imp hc
          · intro c hc; exact List.mem_takeWhile_imp hc
    · exact absurd h (by simp)

/-- A declarative decomposition makes the core match succeed. -/
theorem matchCore_isSome_of {body ext rest : List Char}
    (hbp : ∀ c ∈ body, isPathChar c = true) (hb : body ≠ [])
    (hew : ∀ c ∈ ext, isWordChar c = true) (he : ext ≠ []) :
    (matchCore (body ++ '.' :: (ext ++ rest))).isSome = true := by
  have hdot : isPathChar '.' = false := by decide
  have hd : (body ++ '.' :: (ext ++ rest)).dropWhile isPathChar = '.' :: (ext ++ rest) :=
    dropWhile_all_append body '.' (ext ++ rest) hbp hdot
  have ht : (body ++ '.' :: (ext ++ rest)).takeWhile isPathChar = body :=
    takeWhile_all_append body '.' (ext ++ rest) hbp hdot
  have hne : (ext ++ rest).takeWhile isWordChar ≠ [] := by
    cases ext with
    | nil => exact absurd rfl he
    | cons e etail =>
        have hew1 : isWordChar e = true := hew e (by simp)
        simp [List.takeWhile_cons, hew1]
  unfold matchCore
  rw [hd, ht]
  simp [hb, hne]

theorem matchLit_apps_of_packages (t : List Char) :
    matchLit ("apps/").data (("packages/").data ++ t) = none := rfl

theorem matchLit_slashes_of_hash (t : List Char) :
    matchLit ("// ").data (("# ").data ++ t) = none := rfl

/-- Successful path-group matches decompose the line and the group. -/
theorem matchPathShape_eq_some {s p : List Char} (h : matchPathShape s = some p) :
    ∃ pre body ext rest,
      (pre = ("apps/").data ∨ pre = ("packages/").data) ∧
      s = pre ++ (body ++ '.' :: (ext ++ rest)) ∧
      p = pre ++ (body ++ '.' :: ext) ∧
      body ≠ [] ∧ (∀ c ∈ body, isPathChar c = true) ∧
      ext ≠ [] ∧ (∀ c ∈ ext, isWordChar c = true) := by
  unfold matchPathShape at h
  split at h
  next t ht =>
    have hs : s = ("apps/").data ++ t := (matchLit_eq_some _ _ _).mp ht
    obtain ⟨m, hm, hp⟩ := Option.map_eq_some'.mp h
    obtain ⟨body, ext, rest, h1, h2, h3, h4, h5, h6⟩ := matchCore_eq_some hm
    exact ⟨("apps/").data, body, ext, rest, Or.inl rfl, by rw [hs, h1], by rw [← hp, h2],
      h3, h4, h5, h6⟩
  next =>
    split at h
    next t ht =>
      have hs : s = ("packages/").data ++ t := (matchLit_eq_some _ _ _).mp ht
      obtain ⟨m, hm, hp⟩ := Option.map_eq_some'.mp h
      obtain ⟨body, ext, rest, h1, h2, h3, h4, h5, h6⟩ := matchCore_eq_some hm
      exact ⟨("packages/").data, body, ext, rest, Or.inr rfl, by rw [hs, h1], by rw [← hp, h2],
        h3, h4, h5, h6⟩
    next => exact absurd h (by simp)

/-- The path group matches exactly on the declarative path shape. -/
theorem matchPathShape_isSome_iff {s : List Char} :
    (matchPathShape s).isSome = true ↔ IsPathShapeAt s := by
  constructor
  · intro h
    obtain ⟨p, hp⟩ := Option.isSome_iff_exists.mp h
    obtain ⟨pre, body, ext, rest, hpre, hs, _, h3, h4, h5, h6⟩ := matchPathShape_eq_some hp
    exact ⟨pre, body, ext, rest, hpre, hs, h3, h4, h5, h6⟩
  · rintro ⟨pre, body, ext, rest, hpre, hs, h3, h4, h5, h6⟩
    subst hs
    rcases hpre with hpre | hpre <;> subst hpre
    · have hl : matchLit ("apps/").data (("apps/").data ++ (body ++ '.' :: (ext ++ rest))) =
          some (body ++ '.' :: (ext ++ rest)) := (matchLit_eq_some _ _ _).mpr rfl
      unfold matchPathShape
      rw [hl]
      simp only [Option.isSome_map']
      exact matchCore_isSome_of h4 h3 h6 h5
    · have hl : matchLit ("packages/").data (("packages/").data ++ (body ++ '.' :: (ext ++ rest))) =
          some (body ++ '.' :: (ext ++ rest)) := (matchLit_eq_some _ _ _).mpr rfl
      unfold matchPathShape
      rw [matchLit_apps_of_packages, hl]
      simp only [Option.isSome_map']
      exact matchCore_isSome_of h4 h3 h6 h5

/-- Successful matches of the comment-prefixed pattern decompose the line. -/
theorem reMatchPattern1_eq_some {s p : List Char} (h : reMatchPattern1 s = some p) :
    ∃ t, (s = ("// ").data ++ t ∨ s = ("# ").data ++ t) ∧ matchPathShape t = some p := by
  unfold reMatchPattern1 at h
  split at h
  next t ht => exact ⟨t, Or.inl ((matchLit_eq_some _ _ _).mp ht), h⟩
  next =>
    split at h
    next t ht => exact ⟨t, Or.inr ((matchLit_eq_some _ _ _).mp ht), h⟩
    next => exact absurd h (by simp)

/-- The comment-prefixed pattern matches exactly when a comment token, one
space, and the path shape open the line. -/
theorem reMatchPattern1_isSome_iff {s : List Char} :
    (reMatchPattern1 s).isSome = true ↔
      ∃ t, (s = ("// ").data ++ t ∨ s = ("# ").data ++ t) ∧ IsPathShapeAt t := by
  constructor
  · intro h
    obtain ⟨p, hp⟩ := Option.isSome_iff_exists.mp h
    obtain ⟨t, hor, hm⟩ := reMatchPattern1_eq_some hp
    exact ⟨t, hor, matchPathShape_isSome_iff.mp (by rw [hm]; rfl)⟩
  · rintro ⟨t, hor | hor, hshape⟩ <;> subst hor
    · have hl : matchLit ("// ").data (("// ").data ++ t) = some t :=
        (matchLit_eq_some _ _ _).mpr rfl
      unfold reMatchPattern1
      rw [hl]
      exact matchPathShape_isSome_iff.mpr hshape
    · have hl : matchLit ("# ").data (("# ").data ++ t) = some t :=
        (matchLit_eq_some _ _ _).mpr rfl
      unfold reMatchPattern1
      rw [matchLit_slashes_of_hash, hl]
      exact matchPathShape_isSome_iff.mpr hshape

theorem word_not_quote {c : Char} (h : isWordChar c = true) : isQuoteChar c = false := by
  cases hq : isQuoteChar c
  · rfl
  · exfalso
    have hc : c = Char.ofNat 39 ∨ c = '"' := by simpa [isQuoteChar] using hq
    rcases hc with rfl | rfl <;> exact absurd h (by decide)

theorem word_not_space {c : Char} (h : isWordChar c = true) : isPySpace c = false := by
  cases hq : isPySpace c
  · rfl
  · exfalso
    have hc : ((((c = ' ' ∨ c = '\t') ∨ c = '\n') ∨ c = '\r') ∨ c = Char.ofNat 11) ∨
        c = Char.ofNat 12 := by simpa [isPySpace] using hq
    rcases hc with ((((rfl | rfl) | rfl) | rfl) | rfl) | rfl <;> exact absurd h (by decide)

/-- Every path the scanner extracts decomposes as root, slash, body, dot,
extension. -/
theorem findMarker_shape {line p : List Char} (h : findMarker line = some p) :
    ∃ pre body ext,
      (pre = ("apps/").data ∨ pre = ("packages/").data) ∧
      p = pre ++ (body ++ '.' :: ext) ∧
      body ≠ [] ∧ (∀ c ∈ body, isPathChar c = true) ∧
      ext ≠ [] ∧ (∀ c ∈ ext, isWordChar c = true) := by
  unfold findMarker at h
  split at h
  next p' hp' =>
    obtain ⟨t, _, hm⟩ := reMatchPattern1_eq_some hp'
    obtain ⟨pre, body, ext, rest, hpre, _, hp, h3, h4, h5, h6⟩ :=
      matchPathShape_eq_some (hm.trans h)
    exact ⟨pre, body, ext, hpre, hp, h3, h4, h5, h6⟩
  next =>
    obtain ⟨pre, body, ext, rest, hpre, _, hp, h3, h4, h5, h6⟩ := matchPathShape_eq_some h
    exact ⟨pre, body, ext, hpre, hp, h3, h4, h5, h6⟩

/-- The quote/whitespace normalization of `process_file` line 71 leaves every
extracted path unchanged: such a path starts with `a` or `p` and ends with a
word character. -/
theorem normalizePath_marker {line p : List Char} (h : findMarker line = some p) :
    normalizePath p = p := by
  obtain ⟨pre, body, ext, hpre, hp, _, _, he, hew⟩ := findMarker_shape h
  have hhead : ∀ c, p.head? = some c → isQuoteChar c = false ∧ isPySpace c = false := by
    intro c hc
    rw [hp] at hc
    rcases hpre with hpre | hpre <;> subst hpre <;>
      simp only [apps_data, packages_data, List.cons_append, List.head?_cons,
        Option.some_inj] at hc <;> subst hc <;> exact ⟨by decide, by decide⟩
  have hlastext : p.getLast? = ext.getLast? := by
    rw [hp, show pre ++ (body ++ '.' :: ext) = (pre ++ body ++ ['.']) ++ ext by simp,
      List.getLast?_append]
    obtain ⟨e, hee⟩ := Option.isSome_iff_exists.mp (List.getLast?_isSome.mpr he)
    rw [hee]; rfl
  have hlast : ∀ c, p.getLast? = some c → isQuoteChar c = false ∧ isPySpace c = false := by
    intro c hc
    rw [hlastext] at hc
    have hcw : isWordChar c = true := hew c (getLast?_some_mem hc)
    exact ⟨word_not_quote hcw, word_not_space hcw⟩
  unfold normalizePath
  rw [stripEnds_id isQuoteChar p (fun c hc => (hhead c hc).1) (fun c hc => (hlast c hc).1)]
  exact stripEnds_id isPySpace p (fun c hc => (hhead c hc).2) (fun c hc => (hlast c hc).2)

/-! ## Lemmas about the scanning loop -/

/-- Unfolding equation of `extractGo` at end of input. -/
theorem extractGo_nil (sk : Bool) (cur : Option (List Char)) (acc : List (List Char)) :
    extractGo [] sk cur acc =
      match cur with
      | some cf => if acc = [] then [] else [(cf, pyStrip (joinNL acc))]
      | none => [] := rfl

/-- Unfolding equation of `extractGo` at a line. -/
theorem extractGo_cons (l : List Char) (ls : List (List Char)) (sk : Bool)
    (cur : Option (List Char)) (acc : List (List Char)) :
    extractGo (l :: ls) sk cur acc =
      if sk && isBlankOrComment l then extractGo ls true cur acc
      else
        match findMarker l with
        | some p =>
            (match cur with
             | some cf => [(cf, pyStrip (joinNL acc))]
             | none => []) ++ extractGo ls true (some p) []
        | none =>
            match cur with
            | some _ => extractGo ls false cur (acc ++ [l])
            | none => extractGo ls false cur acc := rfl

/-- With no open file and no marker in sight, the scanner emits nothing. -/
theorem extractGo_no_marker_none :
    ∀ (ls : List (List Char)) (sk : Bool) (acc : List (List Char)),
      (∀ l ∈ ls, findMarker l = none) → extractGo ls sk none acc = [] := by
  intro ls
  induction ls with
  | nil => intro sk acc _; rfl
  | cons l ls ih =>
      intro sk acc hall
      rw [extractGo_cons]
      by_cases hsk : (sk && isBlankOrComment l) = true
      · rw [if_pos hsk]
        exact ih true acc (fun x hx => hall x (by simp [hx]))
      · rw [if_neg hsk, hall l (by simp)]
        exact ih false acc (fun x hx => hall x (by simp [hx]))

/-- Marker-free lines before the first marker are discarded. -/
theorem extractGo_pre :
    ∀ (pre ls : List (List Char)), (∀ l ∈ pre, findMarker l = none) →
      extractGo (pre ++ ls) false none [] = extractGo ls false none [] := by
  intro pre
  induction pre with
  | nil => intro ls _; rfl
  | cons l p ih =>
      intro ls hall
      rw [List.cons_append, extractGo_cons]
      rw [if_neg (by simp), hall l (by simp)]
      exact ih ls (fun x hx => hall x (by simp [hx]))

/-- The skip phase consumes a run of blank/comment lines without touching
the state. -/
theorem extractGo_skip :
    ∀ (sk ls : List (List Char)) (cur : Option (List Char)) (acc : List (List Char)),
      (∀ l ∈ sk, isBlankOrComment l = true) →
      extractGo (sk ++ ls) true cur acc = extractGo ls true cur acc := by
  intro sk
  induction sk with
  | nil => intro ls cur acc _; rfl
  | cons l s ih =>
      intro ls cur acc hall
      rw [List.cons_append, extractGo_cons]
      rw [if_pos (by simp [hall l (by simp)])]
      exact ih ls cur acc (fun x hx => hall x (by simp [hx]))

/-- With a file open, out of the skip phase and no further marker, the
remaining lines are all accumulated and flushed at end of input. -/
theorem extractGo_tail_no_marker :
    ∀ (rest : List (List Char)) (cf : List Char) (acc : List (List Char)),
      (∀ l ∈ rest, findMarker l = none) →
      extractGo rest false (some cf) acc =
        if acc ++ rest = [] then [] else [(cf, pyStrip (joinNL (acc ++ rest)))] := by
  intro rest
  induction rest with
  | nil => intro cf acc _; simp [extractGo]
  | cons l rest ih =>
      intro cf acc hall
      rw [extractGo_cons]
      rw [if_neg (by simp), hall l (by simp)]
      rw [ih cf (acc ++ [l]) (fun x hx => hall x (by simp [hx]))]
      simp

/-- The paths the scanner emits, in order, form a subsequence of the marker
paths of the lines, in line order, preceded by the already-open path. -/
theorem extractGo_fst_sublist :
    ∀ (ls : List (List Char)) (sk : Bool) (cur : Option (List Char)) (acc : List (List Char)),
      ((extractGo ls sk cur acc).map Prod.fst).Sublist
        (cur.toList ++ ls.filterMap findMarker) := by
  intro ls
  induction ls with
  | nil =>
      intro sk cur acc
      rw [extractGo_nil]
      cases cur with
      | none => simp
      | some cf =>
          by_cases hacc : acc = []
          · simp [hacc]
          · simp [hacc]
  | cons l ls ih =>
      intro sk cur acc
      rw [extractGo_cons]
      by_cases hsk : (sk && isBlankOrComment l) = true
      · rw [if_pos hsk]
        refine (ih true cur acc).trans ?_
        rw [List.filterMap_cons]
        cases hm : findMarker l
        · exact List.Sublist.refl _
        · exact List.Sublist.append_left (List.sublist_cons_self _ _) _
      · rw [if_neg hsk]
        cases hm : findMarker l with
        | some p =>
            rw [List.map_append, List.filterMap_cons, hm]
            have hrec := ih true (some p) []
            cases cur with
            | none => simpa using hrec
            | some cf =>
                simp only [List.map_cons, List.map_nil, Option.toList_some, List.cons_append,
                  List.nil_append]
                exact List.Sublist.cons₂ cf hrec
        | none =>
            rw [List.filterMap_cons, hm]
            cases cur with
            | none => exact ih false none acc
            | some cf => exact ih false (some cf) (acc ++ [l])

/-- Every path the scanner emits is left unchanged by the normalization of
`process_file` line 71. -/
theorem extractGo_fst_normalized :
    ∀ (ls : List (List Char)) (sk : Bool) (cur : Option (List Char)) (acc : List (List Char)),
      (∀ cf, cur = some cf → normalizePath cf = cf) →
      ∀ z ∈ extractGo ls sk cur acc, normalizePath z.1 = z.1 := by
  intro ls
  induction ls with
  | nil =>
      intro sk cur acc hcur z hz
      rw [extractGo_nil] at hz
      cases cur with
      | none => simp at hz
      | some cf =>
          by_cases hacc : acc = []
          · simp [hacc] at hz
          · simp [hacc] at hz
            subst hz
            exact hcur cf rfl
  | cons l ls ih =>
      intro sk cur acc hcur z hz
      rw [extractGo_cons] at hz
      by_cases hsk : (sk && isBlankOrComment l) = true
      · rw [if_pos hsk] at hz
        exact ih true cur acc hcur z hz
      · rw [if_neg hsk] at hz
        cases hm : findMarker l with
        | some p =>
            rw [hm] at hz
            rw [List.mem_append] at hz
            rcases hz with hz | hz
            · cases cur with
              | none => simp at hz
              | some cf =>
                  simp at hz
                  subst hz
                  exact hcur cf rfl
            · refine ih true (some p) [] (fun cf2 hcf => ?_) z hz
              injection hcf with h2
              rw [← h2]
              exact normalizePath_marker hm
        | none =>
            rw [hm] at hz
            cases cur with
            | none => exact ih false none acc hcur z hz
            | some cf => exact ih false (some cf) (acc ++ [l]) hcur z hz

/-! ## Lemmas about the organizer model -/

theorem applyWrites_cons (fs : FS) (w : List Char × List Char) (ws : List (List Char × List Char)) :
    applyWrites fs (w :: ws) = applyWrites (writeFile fs w.1 w.2) ws := rfl

theorem lastWrite_cons (w : List Char × List Char) (ws : List (List Char × List Char))
    (q : List Char) :
    lastWrite (w :: ws) q =
      (match lastWrite ws q with
       | some c => some c
       | none => if q = w.1 then some w.2 else none) := rfl

/-- A sequence of writes reads back as the last write per path, over the
starting filesystem. -/
theorem applyWrites_apply :
    ∀ (ws : List (List Char × List Char)) (fs : FS) (q : List Char),
      applyWrites fs ws q =
        match lastWrite ws q with
        | some c => some c
        | none => fs q := by
  intro ws
  induction ws with
  | nil => intro fs q; rfl
  | cons w ws ih =>
      intro fs q
      rw [applyWrites_cons, ih, lastWrite_cons]
      cases hl : lastWrite ws q with
      | some c => rfl
      | none =>
          by_cases hq : q = w.1
          · simp [writeFile, hq]
          · simp [writeFile, hq]

/-- Replaying the same write sequence over its own result changes nothing. -/
theorem applyWrites_idem (ws : List (List Char × List Char)) (fs : FS) :
    applyWrites (applyWrites fs ws) ws = applyWrites fs ws := by
  funext q
  rw [applyWrites_apply ws (applyWrites fs ws) q, applyWrites_apply ws fs q]
  cases hl : lastWrite ws q with
  | some c => rfl
  | none => rfl

theorem runDocs_append (a b : List (List Char × Except (List Char) (List (List Char)))) :
    runDocs (a ++ b) = runDocs a ++ runDocs b := by
  induction a with
  | nil => rfl
  | cons d ds ih => simp [runDocs, ih, List.append_assoc]

/-! ## The claims -/

/-- C3: for every input text containing no line that matches either marker
pattern, `extract_file_info` returns the empty sequence. -/
theorem claim_C3 (content : List Char)
    (h : ∀ l ∈ splitLines content, findMarker l = none) :
    extract_file_info content = [] :=
  extractGo_no_marker_none (splitLines content) false [] h

theorem claim_C3_witness :
    (∀ l ∈ splitLines ("hello\nworld").data, findMarker l = none) ∧
      extract_file_info ("hello\nworld").data = [] :=
  ⟨by decide, claim_C3 _ (by decide)⟩

/-- C2: a text with exactly one marker, then a run of blank/comment lines,
then content starting with a non-blank non-comment line and containing no
further marker, extracts to exactly one pair whose content is the trimmed
newline-join of the content lines, the skipped blank/comment run excluded. -/
theorem claim_C2 (content : List Char) (pre skips rest' : List (List Char))
    (m r0 p : List Char)
    (hsplit : splitLines content = pre ++ m :: (skips ++ r0 :: rest'))
    (hpre : ∀ l ∈ pre, findMarker l = none)
    (hm : findMarker m = some p)
    (hskip : ∀ l ∈ skips, isBlankOrComment l = true)
    (hr0 : isBlankOrComment r0 = false)
    (hnomore : ∀ l ∈ r0 :: rest', findMarker l = none) :
    extract_file_info content = [(p, pyStrip (joinNL (r0 :: rest')))] := by
  unfold extract_file_info
  rw [hsplit, extractGo_pre pre _ hpre, extractGo_cons]
  rw [if_neg (by simp), hm]
  show extractGo (skips ++ r0 :: rest') true (some p) [] = _
  rw [extractGo_skip skips _ _ _ hskip, extractGo_cons]
  rw [if_neg (by simp [hr0]), hnomore r0 (by simp)]
  show extractGo rest' false (some p) [r0] = _
  rw [extractGo_tail_no_marker rest' p [r0] (fun x hx => hnomore x (by simp [hx]))]
  simp

theorem claim_C2_witness :
    splitLines ("hello\n// apps/a.ts\n\n// note\nx = 1\ny").data =
        [("hello").data] ++ ("// apps/a.ts").data ::
          ([[], ("// note").data] ++ ("x = 1").data :: [("y").data]) ∧
      extract_file_info ("hello\n// apps/a.ts\n\n// note\nx = 1\ny").data =
        [(("apps/a.ts").data, pyStrip (joinNL (("x = 1").data :: [("y").data])))] :=
  ⟨by decide,
    claim_C2 ("hello\n// apps/a.ts\n\n// note\nx = 1\ny").data [("hello").data]
      [[], ("// note").data] [("y").data] ("// apps/a.ts").data ("x = 1").data
      ("apps/a.ts").data (by decide) (by decide) (by decide) (by decide) (by decide)
      (by decide)⟩

/-- C8: the four-line end-to-end document of the spec extracts to exactly the
two expected pairs, in order. -/
theorem claim_C8 :
    extract_file_info
        ("// apps/web/src/index.ts\nconsole.log(\"hi\");\n// apps/web/src/util.ts\nexport const x = 1;").data =
      [(("apps/web/src/index.ts").data, ("console.log(\"hi\");").data),
       (("apps/web/src/util.ts").data, ("export const x = 1;").data)] := by decide

/-- C6: the sequence of extracted paths is a subsequence of the marker paths
in line order — pairs from earlier markers precede pairs from later markers,
duplicates kept as separate pairs in that order. -/
theorem claim_C6 (content : List Char) :
    ((extract_file_info content).map Prod.fst).Sublist
      ((splitLines content).filterMap findMarker) := by
  have h := extractGo_fst_sublist (splitLines content) false none []
  simpa using h

/-- C1, counterexample: two adjacent bare markers followed by content.  The
first path is not dropped — it is emitted with empty content, because the
emission at lines 39–40 has no non-empty-accumulator guard. -/
theorem claim_C1_counterexample :
    extract_file_info ("apps/a.ts\napps/b.ts\nx").data =
      [(("apps/a.ts").data, []), (("apps/b.ts").data, ("x").data)] := by decide

/-- C1, amended: in every reachable loop state — any remaining lines, any
skip flag, any open path, any accumulator — a marker line that the skip phase
does not consume makes the loop emit the pair for the open path
unconditionally: an empty accumulator yields a pair with empty content
(`pyStrip (joinNL [])` is `[]`) instead of dropping the path.  The non-empty
guard exists only at end of input, where the flush emits exactly when the
accumulator list is non-empty. -/
theorem claim_C1_amended :
    (∀ (l : List Char) (ls : List (List Char)) (sk : Bool) (cf p : List Char)
        (acc : List (List Char)),
        findMarker l = some p → (sk && isBlankOrComment l) = false →
        extractGo (l :: ls) sk (some cf) acc =
          (cf, pyStrip (joinNL acc)) :: extractGo ls true (some p) []) ∧
    (∀ (sk : Bool) (cf : List Char) (acc : List (List Char)),
        extractGo [] sk (some cf) acc =
          if acc = [] then [] else [(cf, pyStrip (joinNL acc))]) := by
  constructor
  · intro l ls sk cf p acc h1 h2
    rw [extractGo_cons, if_neg (by simp [h2]), h1]
    rfl
  · intro sk cf acc
    exact extractGo_nil sk (some cf) acc

theorem claim_C1_witness :
    (extractGo [("apps/bb.ts").data, ("y").data] false (some ("apps/aa.ts").data) [] =
        (("apps/aa.ts").data, []) ::
          extractGo [("y").data] true (some ("apps/bb.ts").data) []) ∧
      extractGo [] false (some ("apps/aa.ts").data) [] = [] :=
  ⟨claim_C1_amended.1 ("apps/bb.ts").data [("y").data] false ("apps/aa.ts").data
      ("apps/bb.ts").data [] (by decide) (by decide),
    by rw [claim_C1_amended.2 false (("apps/aa.ts").data) []]; rfl⟩

/-- C4, counterexample: a document whose marker-like line wraps the path in
quotes yields no extracted pair at all — the path patterns admit no quote
characters, so no output path `apps/a/b.ts` is ever produced from it. -/
theorem claim_C4_counterexample :
    extract_file_info ("// \"apps/a/b.ts\"\nexport const x = 1;").data = [] ∧
      extract_file_info ("\"apps/a/b.ts\"\nexport const x = 1;").data = [] :=
  ⟨by decide, by decide⟩

/-- C4, amended: the quote/whitespace-stripping normalization of
`process_file` is the identity on every path `extract_file_info` actually
produces, so the per-document writes use the extracted paths unchanged. -/
theorem claim_C4_amended (content : List Char) :
    fileWrites content = extract_file_info content := by
  unfold fileWrites
  have h := extractGo_fst_normalized (splitLines content) false none []
    (fun cf hcf => by cases hcf)
  calc (extract_file_info content).map (fun z => (normalizePath z.1, z.2))
      = (extract_file_info content).map id := by
        apply List.map_congr_left
        intro z hz
        rw [h z hz]
        exact Prod.mk.eta
    _ = extract_file_info content := List.map_id _

/-- C5, counterexample: a bare path preceded by spaces.  The code strips the
line before anchoring, so it is recognized; the claim's two forms (comment
token after trimming, or path at the very start of the raw line) both fail
on it. -/
theorem claim_C5_counterexample :
    (findMarker ("  apps/a/b.ts").data).isSome = true ∧
      isMarkerClaim ("  apps/a/b.ts").data = false :=
  ⟨by decide, by decide⟩

/-- C5, amended: a line is recognized as a marker exactly when its trimmed
form begins with a comment token followed by one space and the path shape, or
itself begins with the path shape: both forms anchor on the trimmed line, and
the comment token is followed by exactly one space. -/
theorem claim_C5_amended (line : List Char) :
    (findMarker line).isSome = true ↔ IsMarkerAmended line := by
  unfold findMarker IsMarkerAmended
  cases hp1 : reMatchPattern1 (pyStrip line) with
  | some p =>
      constructor
      · intro _
        exact Or.inl (reMatchPattern1_isSome_iff.mp (by rw [hp1]; rfl))
      · intro _; rfl
  | none =>
      show (matchPathShape (pyStrip line)).isSome = true ↔ _
      rw [matchPathShape_isSome_iff]
      constructor
      · exact Or.inr
      · rintro (hA | hB)
        · exfalso
          have hs : (reMatchPattern1 (pyStrip line)).isSome = true :=
            reMatchPattern1_isSome_iff.mpr hA
          rw [hp1] at hs
          exact absurd hs (by simp)
        · exact hB

/-- C7: a failing document in the middle of a run is converted into one error
event naming it, the documents after it are still processed, and only a
failure of the destination-directory creation aborts the run. -/
theorem claim_C7 (pre post : List (List Char × Except (List Char) (List (List Char))))
    (docName e f : List Char) :
    organizeRun (Except.ok ()) (pre ++ (docName, Except.error e) :: post) =
        Except.ok (runDocs pre ++ Event.errorProcessing docName e :: runDocs post) ∧
      organizeRun (Except.error f) (pre ++ (docName, Except.error e) :: post) =
        Except.error f := by
  constructor
  · show Except.ok (runDocs (pre ++ (docName, Except.error e) :: post)) = _
    rw [runDocs_append]
    rfl
  · rfl

/-- C9: replaying the complete write sequence of a run over its own result
leaves every path's final content unchanged — running `organize` twice equals
running it once. -/
theorem claim_C9 (dest : List Char) (docs : List (List Char)) (fs : FS) :
    applyWrites (applyWrites fs (allWrites dest docs)) (allWrites dest docs) =
      applyWrites fs (allWrites dest docs) :=
  applyWrites_idem (allWrites dest docs) fs

theorem loopStep_def (lines : List (List Char)) (s : LoopState) :
    loopStep lines s =
      match lines.get? s.i with
      | none => s
      | some line =>
        match findMarker line with
        | some p =>
            { i := skipIndex lines (s.i + 1),
              current_file := some p,
              current_content := [],
              files_data := s.files_data ++ (match s.current_file with
                | some cf => [(cf, pyStrip (joinNL s.current_content))]
                | none => []) }
        | none =>
            { i := s.i + 1,
              current_file := s.current_file,
              current_content := (match s.current_file with
                | some _ => s.current_content ++ [line]
                | none => s.current_content),
              files_data := s.files_data } := rfl

/-- C10: while the index is in range, one iteration of the outer loop
strictly increases it — on the marker branch past the inner skip loop, on the
other branch by one — so the scan terminates on every finite input. -/
theorem claim_C10 (lines : List (List Char)) (s : LoopState) (h : s.i < lines.length) :
    s.i < (loopStep lines s).i := by
  rw [loopStep_def]
  cases hg : lines.get? s.i with
  | none => exact absurd (List.get?_eq_none.mp hg) (Nat.not_le.mpr h)
  | some line =>
      cases hm : findMarker line with
      | some p =>
          simp only [hm]
          exact Nat.lt_of_lt_of_le (Nat.lt_succ_self _) (Nat.le_add_right _ _)
      | none =>
          simp only [hm]
          exact Nat.lt_succ_self _

theorem claim_C10_witness :
    (0 : Nat) < [("x").data].length ∧
      0 < (loopStep [("x").data] ⟨0, none, [], []⟩).i :=
  ⟨by decide, claim_C10 [("x").data] ⟨0, none, [], []⟩ (by decide)⟩

/-! ## Concrete evaluations of the embedding, as sanity checks -/

example : splitLines ("a\nb").data = [['a'], ['b']] := by decide
example : findMarker ("// apps/web/src/index.ts").data = some ("apps/web/src/index.ts").data := by
  decide
example : findMarker ("# packages/ui/button.tsx").data = some ("packages/ui/button.tsx").data := by
  decide
example : findMarker ("apps/a.ts").data = some ("apps/a.ts").data := by decide
example : findMarker ("  apps/a.ts  ").data = some ("apps/a.ts").data := by decide
example : findMarker ("//  apps/a.ts").data = none := by decide
example : findMarker ("// \"apps/a/b.ts\"").data = none := by decide
example : findMarker ("apps/x").data = none := by decide
example : isBlankOrComment ("  // note").data = true := by decide
example : isBlankOrComment ("apps/a.ts").data = false := by decide
example : pyStrip ("  a b ").data = ("a b").data := by decide
example : normalizePath ("\"apps/a/b.ts\"").data = ("apps/a/b.ts").data := by decide

example :
    extract_file_info ("// apps/web/src/index.ts\nconsole.log(\"hi\");").data =
      [(("apps/web/src/index.ts").data, ("console.log(\"hi\");").data)] := by decide
example :
    extract_file_info ("apps/a.ts\napps/b.ts\nx").data =
      [(("apps/a.ts").data, []), (("apps/b.ts").data, ("x").data)] := by decide
example :
    extract_file_info ("// apps/a.ts\n// apps/b.ts\ncontent").data =
      [(("apps/a.ts").data, ("content").data)] := by decide
example : extract_file_info ("no markers\nhere").data = [] := by decide

example : (findMarker ("  apps/a/b.ts").data).isSome = true := by decide
example : isMarkerClaim ("  apps/a/b.ts").data = false := by decide
example : isMarkerClaim ("// apps/a/b.ts").data = true := by decide
example : isMarkerClaim ("apps/a/b.ts").data = true := by decide
